import Mathlib

/-!
Shallow embedding of `dense-slotmap-mem` (src/src/lib.rs): a fixed-capacity,
generation-tracked dense slot map stored in a caller-supplied buffer.

The memory region is modelled as an explicit state record: the header fields
(`capacity`, `len`, `elementSize`), the trailer field `freeTop`, the four
bookkeeping `u16[capacity]` arrays as functions `Nat → Nat` (the array is the
restriction of the function to `[0, capacity)`; all u16 values are Nats
`< 65536` with wrapping arithmetic written as `% 65536`), and the dense value
area as a function from dense slot index to its `elementSize`-byte payload.
Fallible operations return `Option` / a `Bool` flag exactly where the Rust
functions do.
-/

namespace DSM

/-- The sentinel `INVALID_U16 = 0xFFFF` from the source. -/
def INVALID : Nat := 65535

/-- Pointwise update of a function-modelled array: `ptr::write(f.add(i), v)`. -/
def upd {α : Type} (f : Nat → α) (i : Nat) (v : α) : Nat → α :=
  fun j => if j = i then v else f j

/-- State of one slot-map region (header + trailer + bookkeeping arrays +
dense values), as laid out by `init` in src/src/lib.rs. -/
structure SlotMap where
  capacity : Nat
  len : Nat
  elementSize : Nat
  freeTop : Nat
  idToIndex : Nat → Nat
  indexToId : Nat → Nat
  generation : Nat → Nat
  freeStack : Nat → Nat
  values : Nat → List Nat

/-- `init(base, capacity, element_size)`: len = 0, free_top = capacity, both
index maps all `INVALID`, generations all 1, free_stack ascending `0..capacity`.
The dense value bytes are uninitialized in the source; the model takes zeros. -/
def init (capacity elementSize : Nat) : SlotMap :=
  { capacity := capacity
    len := 0
    elementSize := elementSize
    freeTop := capacity
    idToIndex := fun _ => INVALID
    indexToId := fun _ => INVALID
    generation := fun _ => 1
    freeStack := fun i => i
    values := fun _ => List.replicate elementSize 0 }

/-- `clear(base)`: reset len, free_top, both index maps and the free stack to
the init state; generations are deliberately left untouched. -/
def clear (s : SlotMap) : SlotMap :=
  { s with
    len := 0
    freeTop := s.capacity
    idToIndex := fun _ => INVALID
    indexToId := fun _ => INVALID
    freeStack := fun i => i }

/-- `allocate(base) -> Option<(id, generation)>`: `None` when `free_top == 0`;
otherwise pop the top id off the free stack, append it at dense index `len`,
write both maps, bump `len`, and return the id with its stored generation.
The successor state is returned alongside the handle. -/
def allocate (s : SlotMap) : Option ((Nat × Nat) × SlotMap) :=
  if s.freeTop = 0 then none
  else
    let id := s.freeStack (s.freeTop - 1)
    some ((id, s.generation id),
      { s with
        freeTop := s.freeTop - 1
        len := s.len + 1
        idToIndex := upd s.idToIndex id s.len
        indexToId := upd s.indexToId s.len id })

/-- `validate_handle(base, id, generation)`: checks, in source order,
`id < capacity`, `generation[id] == generation`, `id_to_index[id] != INVALID`,
and returns the dense index on success. -/
def validate_handle (s : SlotMap) (id generation : Nat) : Option Nat :=
  if s.capacity ≤ id then none
  else if s.generation id ≠ generation then none
  else if s.idToIndex id = INVALID then none
  else some (s.idToIndex id)

/-- `is_alive(base, id, generation)`. -/
def is_alive (s : SlotMap) (id generation : Nat) : Bool :=
  (validate_handle s id generation).isSome

/-- `insert(base, id, generation, src)`: on a valid handle copy exactly
`element_size` bytes of `src` into `values[index]` and return true; otherwise
return false without writing. -/
def insert (s : SlotMap) (id generation : Nat) (src : List Nat) : Bool × SlotMap :=
  match validate_handle s id generation with
  | none => (false, s)
  | some index =>
    (true, { s with values := upd s.values index (src.take s.elementSize) })

/-- The mutation performed by `remove` once the handle has validated to dense
slot `index`: swap with the last dense slot when `index != last` and re-point
the maps for the moved id, then clear the last slot's map entries and the
removed id's entry, decrement `len`, bump `generation[id]` (wrapping u16), and
push `id` onto the free stack. -/
def removeAt (s : SlotMap) (id index : Nat) : SlotMap :=
  let last := s.len - 1
  let s1 :=
    if index = last then s
    else
      { s with
        values := upd (upd s.values index (s.values last)) last (s.values index)
        indexToId := upd s.indexToId index (s.indexToId last)
        idToIndex := upd s.idToIndex (s.indexToId last) index }
  { s1 with
    indexToId := upd s1.indexToId last INVALID
    idToIndex := upd s1.idToIndex id INVALID
    len := last
    generation := upd s1.generation id ((s1.generation id + 1) % 65536)
    freeStack := upd s1.freeStack s1.freeTop id
    freeTop := s1.freeTop + 1 }

/-- `remove(base, id, generation) -> bool`: validate, then swap-remove. -/
def remove (s : SlotMap) (id generation : Nat) : Bool × SlotMap :=
  match validate_handle s id generation with
  | none => (false, s)
  | some index => (true, removeAt s id index)

/-- One mutating call of the public API (used to describe operation
sequences). -/
inductive Op where
  | allocate : Op
  | insert (id generation : Nat) (src : List Nat) : Op
  | remove (id generation : Nat) : Op
  | clear : Op

/-- The state reached after one call (`allocate` that fails leaves the region
unchanged). -/
def step (s : SlotMap) : Op → SlotMap
  | Op.allocate =>
    match allocate s with
    | none => s
    | some (_, s') => s'
  | Op.insert id g src => (insert s id g src).2
  | Op.remove id g => (remove s id g).2
  | Op.clear => clear s

/-- Run a sequence of calls. -/
def run (s : SlotMap) (ops : List Op) : SlotMap :=
  ops.foldl step s

/-- Reachable region states: `init` with a nonzero u16 capacity, followed by
any sequence of public mutating calls. -/
inductive Reachable : SlotMap → Prop where
  | init : ∀ c e, 0 < c → c ≤ 65535 → Reachable (init c e)
  | step : ∀ s op, Reachable s → Reachable (step s op)

/-- Well-formedness invariant of a region, as maintained by the source:
header bounds, `len + free_top == capacity`, the id↔index maps are mutually
inverse bijections between the live ids and `[0, len)` with `INVALID`
everywhere else, generations are u16, and the free stack holds distinct dead
ids. -/
def WF (s : SlotMap) : Prop :=
  0 < s.capacity ∧
  s.capacity ≤ 65535 ∧
  s.len + s.freeTop = s.capacity ∧
  (∀ i, i < s.len → s.indexToId i < s.capacity ∧ s.idToIndex (s.indexToId i) = i) ∧
  (∀ i, i < s.capacity → s.len ≤ i → s.indexToId i = INVALID) ∧
  (∀ id, id < s.capacity →
    s.idToIndex id = INVALID ∨
      (s.idToIndex id < s.len ∧ s.indexToId (s.idToIndex id) = id)) ∧
  (∀ id, id < s.capacity → s.generation id < 65536) ∧
  (∀ k, k < s.freeTop → s.freeStack k < s.capacity ∧ s.idToIndex (s.freeStack k) = INVALID) ∧
  (∀ k, k < s.freeTop → ∀ j, j < k → s.freeStack j ≠ s.freeStack k)

instance decWF (s : SlotMap) : Decidable (WF s) := by
  unfold WF; infer_instance

theorem upd_self {α : Type} (f : Nat → α) (i : Nat) (v : α) : upd f i v i = v := by
  simp [upd]

theorem upd_other {α : Type} (f : Nat → α) (i j : Nat) (v : α) (h : j ≠ i) :
    upd f i v j = f j := by
  simp [upd, h]

/-- Characterization of a successful handle validation: the three checks of
`validate_handle` in src/src/lib.rs. -/
theorem validate_handle_some (s : SlotMap) (id g i : Nat) :
    validate_handle s id g = some i ↔
      id < s.capacity ∧ s.generation id = g ∧ s.idToIndex id ≠ INVALID ∧
        i = s.idToIndex id := by
  unfold validate_handle
  split_ifs with h1 h2 h3 <;> simp_all <;> omega

/-- A failed handle validation is the negation of the three checks. -/
theorem validate_handle_none (s : SlotMap) (id g : Nat) :
    validate_handle s id g = none ↔
      ¬(id < s.capacity ∧ s.generation id = g ∧ s.idToIndex id ≠ INVALID) := by
  unfold validate_handle
  split_ifs with h1 h2 h3 <;> simp_all <;> omega

/-- Characterization of a successful allocation. -/
theorem allocate_eq_some (s : SlotMap) (p : Nat × Nat) (s' : SlotMap) :
    allocate s = some (p, s') ↔
      s.freeTop ≠ 0 ∧
      p = (s.freeStack (s.freeTop - 1), s.generation (s.freeStack (s.freeTop - 1))) ∧
      s' = { s with
              freeTop := s.freeTop - 1
              len := s.len + 1
              idToIndex := upd s.idToIndex (s.freeStack (s.freeTop - 1)) s.len
              indexToId := upd s.indexToId s.len (s.freeStack (s.freeTop - 1)) } := by
  unfold allocate
  split_ifs with h1 <;> simp_all [eq_comm, and_comm]

/-- `allocate` fails exactly on a zero free stack. -/
theorem allocate_eq_none (s : SlotMap) : allocate s = none ↔ s.freeTop = 0 := by
  unfold allocate
  split_ifs with h1 <;> simp_all

/-- `init` establishes the well-formedness invariant. -/
theorem wf_init (c e : Nat) (hc : 0 < c) (hc16 : c ≤ 65535) : WF (init c e) := by
  refine ⟨hc, hc16, by simp [init], ?_, ?_, ?_, ?_, ?_, ?_⟩ <;>
    simp [init, INVALID] <;> omega

/-- `clear` preserves the well-formedness invariant. -/
theorem wf_clear (s : SlotMap) (h : WF s) : WF (clear s) := by
  obtain ⟨hcap, hcap16, hsum, hdense, hgap, hi2x, hgen, hfree, hnodup⟩ := h
  refine ⟨hcap, hcap16, by simp [clear], ?_, ?_, ?_, ?_, ?_, ?_⟩
  · simp [clear]
  · simp [clear]
  · simp [clear]
  · intro id hid
    simpa [clear] using hgen id (by simpa [clear] using hid)
  · simp [clear]
  · simp [clear]; omega

/-- `insert` preserves the well-formedness invariant (it only writes value
bytes). -/
theorem wf_insert (s : SlotMap) (id g : Nat) (src : List Nat) (h : WF s) :
    WF (insert s id g src).2 := by
  unfold insert
  cases hv : validate_handle s id g with
  | none => exact h
  | some i =>
    obtain ⟨hcap, hcap16, hsum, hdense, hgap, hi2x, hgen, hfree, hnodup⟩ := h
    exact ⟨hcap, hcap16, hsum, hdense, hgap, hi2x, hgen, hfree, hnodup⟩

/-- `allocate` preserves the well-formedness invariant. -/
theorem wf_allocate (s : SlotMap) (p : Nat × Nat) (s' : SlotMap) (h : WF s)
    (ha : allocate s = some (p, s')) : WF s' := by
  obtain ⟨hcap, hcap16, hsum, hdense, hgap, hi2x, hgen, hfree, hnodup⟩ := h
  rw [allocate_eq_some] at ha
  obtain ⟨hft, hp, hs'⟩ := ha
  subst hs'
  have hftlt : s.freeTop - 1 < s.freeTop := by omega
  have hid_cap : s.freeStack (s.freeTop - 1) < s.capacity := (hfree _ hftlt).1
  have hid_dead : s.idToIndex (s.freeStack (s.freeTop - 1)) = INVALID := (hfree _ hftlt).2
  have hlen_cap : s.len < s.capacity := by omega
  refine ⟨hcap, hcap16, by simp; omega, ?_, ?_, ?_, ?_, ?_, ?_⟩
  · -- dense side of the bijection
    intro i hi
    simp only at hi ⊢
    rcases Nat.lt_or_ge i s.len with hil | hig
    · have hne : i ≠ s.len := by omega
      rw [upd_other _ _ _ _ hne]
      refine ⟨(hdense i hil).1, ?_⟩
      have hne2 : s.indexToId i ≠ s.freeStack (s.freeTop - 1) := by
        intro hEq
        have := (hdense i hil).2
        rw [hEq, hid_dead] at this
        unfold INVALID at this
        omega
      rw [upd_other _ _ _ _ hne2]
      exact (hdense i hil).2
    · have hieq : i = s.len := by omega
      subst hieq
      rw [upd_self, upd_self]
      exact ⟨hid_cap, rfl⟩
  · -- gap: indices at or beyond the new len are INVALID
    intro i hic hig
    simp only at hig ⊢
    have hne : i ≠ s.len := by omega
    rw [upd_other _ _ _ _ hne]
    exact hgap i hic (by omega)
  · -- sparse side of the bijection
    intro j hj
    simp only at hj ⊢
    by_cases hje : j = s.freeStack (s.freeTop - 1)
    · subst hje
      rw [upd_self, upd_self]
      right
      exact ⟨by omega, rfl⟩
    · rw [upd_other _ _ _ _ hje]
      rcases hi2x j hj with hval | ⟨hlt, heq⟩
      · left; exact hval
      · right
        refine ⟨by omega, ?_⟩
        have hne : s.idToIndex j ≠ s.len := by omega
        rw [upd_other _ _ _ _ hne]
        exact heq
  · exact hgen
  · -- free stack entries below the new top stay dead
    intro k hk
    simp only at hk ⊢
    refine ⟨(hfree k (by omega)).1, ?_⟩
    have hne : s.freeStack k ≠ s.freeStack (s.freeTop - 1) :=
      hnodup (s.freeTop - 1) hftlt k (by omega)
    rw [upd_other _ _ _ _ hne]
    exact (hfree k (by omega)).2
  · intro k hk j hj
    simp only at hk
    exact hnodup k (by omega) j hj

/-- Explicit form of `removeAt` when the removed element is the last dense
slot (the `index == last` branch of `remove`). -/
theorem removeAt_last (s : SlotMap) (id : Nat) :
    removeAt s id (s.len - 1) =
      { s with
        indexToId := upd s.indexToId (s.len - 1) INVALID
        idToIndex := upd s.idToIndex id INVALID
        len := s.len - 1
        generation := upd s.generation id ((s.generation id + 1) % 65536)
        freeStack := upd s.freeStack s.freeTop id
        freeTop := s.freeTop + 1 } := by
  simp [removeAt]

/-- Explicit form of `removeAt` in the swap branch (`index != last`). -/
theorem removeAt_swap (s : SlotMap) (id index : Nat) (h : index ≠ s.len - 1) :
    removeAt s id index =
      { s with
        values := upd (upd s.values index (s.values (s.len - 1))) (s.len - 1)
          (s.values index)
        indexToId := upd (upd s.indexToId index (s.indexToId (s.len - 1))) (s.len - 1)
          INVALID
        idToIndex := upd (upd s.idToIndex (s.indexToId (s.len - 1)) index) id INVALID
        len := s.len - 1
        generation := upd s.generation id ((s.generation id + 1) % 65536)
        freeStack := upd s.freeStack s.freeTop id
        freeTop := s.freeTop + 1 } := by
  simp [removeAt, h]

/-- `removeAt` on a validated handle preserves the well-formedness
invariant. -/
theorem wf_removeAt (s : SlotMap) (id index : Nat) (h : WF s)
    (hid : id < s.capacity) (hidx : s.idToIndex id = index) (hinv : index ≠ INVALID) :
    WF (removeAt s id index) := by
  obtain ⟨hcap, hcap16, hsum, hdense, hgap, hi2x, hgen, hfree, hnodup⟩ := h
  have hlive : ¬(s.idToIndex id = INVALID ∧ True) := by simp [hidx]; exact hinv
  rcases hi2x id hid with hdead | ⟨hlt, heqinv⟩
  · exact absurd (hidx ▸ hdead) hinv
  rw [hidx] at hlt heqinv
  -- hlt : index < s.len, heqinv : s.indexToId index = id
  have hlen_pos : 0 < s.len := by omega
  by_cases hil : index = s.len - 1
  · -- last-slot case
    subst hil
    rw [removeAt_last]
    refine ⟨hcap, hcap16, by dsimp only; omega, ?_, ?_, ?_, ?_, ?_, ?_⟩
    · intro i hi
      dsimp only at hi ⊢
      have hiL : i < s.len := by omega
      have h1 : i ≠ s.len - 1 := by omega
      rw [upd_other _ _ _ _ h1]
      refine ⟨(hdense i hiL).1, ?_⟩
      have h2 : s.indexToId i ≠ id := by
        intro hEq
        have h3 := (hdense i hiL).2
        rw [hEq, hidx] at h3
        omega
      rw [upd_other _ _ _ _ h2]
      exact (hdense i hiL).2
    · intro i hic hig
      dsimp only at hic hig ⊢
      by_cases hieq : i = s.len - 1
      · subst hieq; rw [upd_self]
      · rw [upd_other _ _ _ _ hieq]
        exact hgap i hic (by omega)
    · intro j hj
      dsimp only at hj ⊢
      by_cases hje : j = id
      · subst hje; left; rw [upd_self]
      · rw [upd_other _ _ _ _ hje]
        rcases hi2x j hj with hjdead | ⟨hjl, hjinv⟩
        · left; exact hjdead
        · right
          have hne_last : s.idToIndex j ≠ s.len - 1 := by
            intro hEq
            rw [hEq, heqinv] at hjinv
            exact hje hjinv.symm
          refine ⟨by omega, ?_⟩
          rw [upd_other _ _ _ _ hne_last]
          exact hjinv
    · intro j hj
      dsimp only at hj ⊢
      by_cases hje : j = id
      · subst hje; rw [upd_self]; exact Nat.mod_lt _ (by omega)
      · rw [upd_other _ _ _ _ hje]; exact hgen j hj
    · intro k hk
      dsimp only at hk ⊢
      by_cases hke : k = s.freeTop
      · subst hke
        rw [upd_self]
        exact ⟨hid, by rw [upd_self]⟩
      · have hkf : k < s.freeTop := by omega
        rw [upd_other _ _ _ _ hke]
        refine ⟨(hfree k hkf).1, ?_⟩
        have hne : s.freeStack k ≠ id := by
          intro hEq
          have h3 := (hfree k hkf).2
          rw [hEq, hidx] at h3
          exact hinv h3
        rw [upd_other _ _ _ _ hne]
        exact (hfree k hkf).2
    · intro k hk j hj
      dsimp only at hk ⊢
      by_cases hke : k = s.freeTop
      · subst hke
        rw [upd_self, upd_other _ _ _ _ (by omega : j ≠ s.freeTop)]
        intro hEq
        have h3 := (hfree j hj).2
        rw [hEq, hidx] at h3
        exact hinv h3
      · have hkf : k < s.freeTop := by omega
        rw [upd_other _ _ _ _ hke, upd_other _ _ _ _ (by omega : j ≠ s.freeTop)]
        exact hnodup k hkf j hj
  · -- swap case: index < last, the last element's id is moved to `index`
    have hidx_lt : index < s.len - 1 := by omega
    have hlastL : s.len - 1 < s.len := by omega
    have hMcap : s.indexToId (s.len - 1) < s.capacity := (hdense _ hlastL).1
    have hMidx : s.idToIndex (s.indexToId (s.len - 1)) = s.len - 1 := (hdense _ hlastL).2
    have hMne : s.indexToId (s.len - 1) ≠ id := by
      intro hEq
      rw [hEq, hidx] at hMidx
      exact hil hMidx
    rw [removeAt_swap s id index hil]
    refine ⟨hcap, hcap16, by dsimp only; omega, ?_, ?_, ?_, ?_, ?_, ?_⟩
    · intro i hi
      dsimp only at hi ⊢
      have h1 : i ≠ s.len - 1 := by omega
      rw [upd_other _ _ _ _ h1]
      by_cases hie : i = index
      · subst hie
        rw [upd_self, upd_other _ _ _ _ hMne, upd_self]
        exact ⟨hMcap, rfl⟩
      · rw [upd_other _ _ _ _ hie]
        have hiL : i < s.len := by omega
        refine ⟨(hdense i hiL).1, ?_⟩
        have h2 : s.indexToId i ≠ id := by
          intro hEq
          have h3 := (hdense i hiL).2
          rw [hEq, hidx] at h3
          exact hie h3.symm
        have h3 : s.indexToId i ≠ s.indexToId (s.len - 1) := by
          intro hEq
          have h4 := (hdense i hiL).2
          rw [hEq, hMidx] at h4
          omega
        rw [upd_other _ _ _ _ h2, upd_other _ _ _ _ h3]
        exact (hdense i hiL).2
    · intro i hic hig
      dsimp only at hic hig ⊢
      by_cases hieq : i = s.len - 1
      · subst hieq; rw [upd_self]
      · rw [upd_other _ _ _ _ hieq, upd_other _ _ _ _ (by omega : i ≠ index)]
        exact hgap i hic (by omega)
    · intro j hj
      dsimp only at hj ⊢
      by_cases hje : j = id
      · subst hje; left; rw [upd_self]
      · rw [upd_other _ _ _ _ hje]
        by_cases hjM : j = s.indexToId (s.len - 1)
        · subst hjM
          right
          rw [upd_self]
          refine ⟨hidx_lt, ?_⟩
          rw [upd_other _ _ _ _ hil, upd_self]
        · rw [upd_other _ _ _ _ hjM]
          rcases hi2x j hj with hjdead | ⟨hjl, hjinv⟩
          · left; exact hjdead
          · right
            have hne_last : s.idToIndex j ≠ s.len - 1 := by
              intro hEq
              rw [hEq] at hjinv
              exact hjM hjinv.symm
            have hne_idx : s.idToIndex j ≠ index := by
              intro hEq
              rw [hEq, heqinv] at hjinv
              exact hje hjinv.symm
            refine ⟨by omega, ?_⟩
            rw [upd_other _ _ _ _ hne_last, upd_other _ _ _ _ hne_idx]
            exact hjinv
    · intro j hj
      dsimp only at hj ⊢
      by_cases hje : j = id
      · subst hje; rw [upd_self]; exact Nat.mod_lt _ (by omega)
      · rw [upd_other _ _ _ _ hje]; exact hgen j hj
    · intro k hk
      dsimp only at hk ⊢
      by_cases hke : k = s.freeTop
      · subst hke
        rw [upd_self]
        exact ⟨hid, by rw [upd_self]⟩
      · have hkf : k < s.freeTop := by omega
        rw [upd_other _ _ _ _ hke]
        refine ⟨(hfree k hkf).1, ?_⟩
        have hne : s.freeStack k ≠ id := by
          intro hEq
          have h3 := (hfree k hkf).2
          rw [hEq, hidx] at h3
          exact hinv h3
        have hneM : s.freeStack k ≠ s.indexToId (s.len - 1) := by
          intro hEq
          have h3 := (hfree k hkf).2
          rw [hEq, hMidx] at h3
          unfold INVALID at h3
          omega
        rw [upd_other _ _ _ _ hne, upd_other _ _ _ _ hneM]
        exact (hfree k hkf).2
    · intro k hk j hj
      dsimp only at hk ⊢
      by_cases hke : k = s.freeTop
      · subst hke
        rw [upd_self, upd_other _ _ _ _ (by omega : j ≠ s.freeTop)]
        intro hEq
        have h3 := (hfree j hj).2
        rw [hEq, hidx] at h3
        exact hinv h3
      · have hkf : k < s.freeTop := by omega
        rw [upd_other _ _ _ _ hke, upd_other _ _ _ _ (by omega : j ≠ s.freeTop)]
        exact hnodup k hkf j hj

/-- `remove` preserves the well-formedness invariant. -/
theorem wf_remove (s : SlotMap) (id g : Nat) (h : WF s) : WF (remove s id g).2 := by
  unfold remove
  cases hv : validate_handle s id g with
  | none => exact h
  | some index =>
    rw [validate_handle_some] at hv
    obtain ⟨hid, _, hlive, hix⟩ := hv
    exact wf_removeAt s id index h hid hix.symm (hix ▸ hlive)

/-- Every public mutating call preserves the well-formedness invariant. -/
theorem wf_step (s : SlotMap) (op : Op) (h : WF s) : WF (step s op) := by
  cases op with
  | allocate =>
    unfold step
    cases ha : allocate s with
    | none => exact h
    | some x => exact wf_allocate s x.1 x.2 h (by rw [ha])
  | insert id g src => exact wf_insert s id g src h
  | remove id g => exact wf_remove s id g h
  | clear => exact wf_clear s h

/-- Every reachable state is well-formed. -/
theorem wf_reachable (s : SlotMap) (h : Reachable s) : WF s := by
  induction h with
  | init c e hc hc16 => exact wf_init c e hc hc16
  | step s op _ ih => exact wf_step s op ih

/-- `is_alive` in terms of the three validation checks. -/
theorem is_alive_iff (s : SlotMap) (id g : Nat) :
    is_alive s id g = true ↔
      id < s.capacity ∧ s.generation id = g ∧ s.idToIndex id ≠ INVALID := by
  unfold is_alive
  rw [Option.isSome_iff_exists]
  constructor
  · rintro ⟨i, hi⟩
    rw [validate_handle_some] at hi
    exact ⟨hi.1, hi.2.1, hi.2.2.1⟩
  · rintro ⟨h1, h2, h3⟩
    exact ⟨s.idToIndex id, (validate_handle_some s id g _).2 ⟨h1, h2, h3, rfl⟩⟩

/-- An alive handle validates to some dense index. -/
theorem is_alive_exists (s : SlotMap) (id g : Nat) (h : is_alive s id g = true) :
    ∃ i, validate_handle s id g = some i := by
  unfold is_alive at h
  exact Option.isSome_iff_exists.mp h

/-- Successful `allocate` as a `step`, in explicit record form. -/
theorem step_allocate_eq (s : SlotMap) (h : s.freeTop ≠ 0) :
    step s Op.allocate =
      { s with
        freeTop := s.freeTop - 1
        len := s.len + 1
        idToIndex := upd s.idToIndex (s.freeStack (s.freeTop - 1)) s.len
        indexToId := upd s.indexToId s.len (s.freeStack (s.freeTop - 1)) } := by
  unfold step allocate
  rw [if_neg h]

/-- The handle returned by a successful `allocate`. -/
theorem allocate_map_fst (s : SlotMap) (h : s.freeTop ≠ 0) :
    (allocate s).map Prod.fst =
      some (s.freeStack (s.freeTop - 1), s.generation (s.freeStack (s.freeTop - 1))) := by
  unfold allocate
  rw [if_neg h]
  rfl

/-- The id returned by a successful `allocate` is the top of the free stack. -/
theorem allocate_id (s : SlotMap) (h : s.freeTop ≠ 0) :
    (allocate s).map (fun p => p.1.1) = some (s.freeStack (s.freeTop - 1)) := by
  unfold allocate
  rw [if_neg h]
  rfl

/-- Effect of a successful `remove` on the free stack and the generation
array: the removed id is pushed at the old `free_top`, its generation is
bumped by one mod 2^16, and nothing else in those two arrays changes. -/
theorem remove_stack_effect (s : SlotMap) (id g index : Nat)
    (hv : validate_handle s id g = some index) :
    (remove s id g).2.freeTop = s.freeTop + 1 ∧
    (remove s id g).2.freeStack s.freeTop = id ∧
    (∀ k, k ≠ s.freeTop → (remove s id g).2.freeStack k = s.freeStack k) ∧
    (remove s id g).2.generation id = (s.generation id + 1) % 65536 ∧
    (∀ j, j ≠ id → (remove s id g).2.generation j = s.generation j) := by
  unfold remove
  rw [hv]
  dsimp only
  by_cases hil : index = s.len - 1
  · subst hil
    rw [removeAt_last]
    dsimp only
    exact ⟨rfl, upd_self _ _ _, fun k hk => upd_other _ _ _ _ hk,
      upd_self _ _ _, fun j hj => upd_other _ _ _ _ hj⟩
  · rw [removeAt_swap s id index hil]
    dsimp only
    exact ⟨rfl, upd_self _ _ _, fun k hk => upd_other _ _ _ _ hk,
      upd_self _ _ _, fun j hj => upd_other _ _ _ _ hj⟩

/-- Removing one id never invalidates a different id's live handle. -/
theorem remove_alive_preserved (s : SlotMap) (id g : Nat) (h : WF s) (id' g' : Nat)
    (hne : id' ≠ id) (ha : is_alive s id' g' = true) :
    is_alive (remove s id g).2 id' g' = true := by
  obtain ⟨hcap, hcap16, hsum, hdense, hgap, hi2x, hgen, hfree, hnodup⟩ := h
  cases hv : validate_handle s id g with
  | none =>
    unfold remove
    rw [hv]
    exact ha
  | some index =>
    unfold remove
    rw [hv]
    dsimp only
    rw [validate_handle_some] at hv
    obtain ⟨hid, hgene, hlive, hix⟩ := hv
    rw [is_alive_iff] at ha
    obtain ⟨h1, h2, h3⟩ := ha
    have hixne : index ≠ INVALID := by rw [hix]; exact hlive
    by_cases hil : index = s.len - 1
    · subst hil
      rw [is_alive_iff, removeAt_last]
      dsimp only
      refine ⟨h1, ?_, ?_⟩
      · rw [upd_other _ _ _ _ hne]; exact h2
      · rw [upd_other _ _ _ _ hne]; exact h3
    · rw [is_alive_iff, removeAt_swap s id index hil]
      dsimp only
      refine ⟨h1, ?_, ?_⟩
      · rw [upd_other _ _ _ _ hne]; exact h2
      · by_cases hM : id' = s.indexToId (s.len - 1)
        · subst hM
          rw [upd_other _ _ _ _ hne, upd_self]
          rw [hix] at hixne ⊢
          exact hixne
        · rw [upd_other _ _ _ _ hne, upd_other _ _ _ _ hM]
          exact h3

/-- A `remove` call with a validating handle, as a `step`. -/
theorem step_remove_eq (s : SlotMap) (id g index : Nat)
    (hv : validate_handle s id g = some index) :
    step s (Op.remove id g) = removeAt s id index := by
  unfold step remove
  dsimp only
  rw [hv]

/-- The trace that drives the 16-bit generation counter around: a capacity-1
region on which id 0 is allocated and removed `k` times. After `k` rounds the
stored generation of id 0 is `(1 + k) % 2^16`. -/
def cyc : Nat → SlotMap
  | 0 => init 1 1
  | k + 1 => step (step (cyc k) Op.allocate) (Op.remove 0 ((1 + k) % 65536))

/-- Every `cyc` state is reachable. -/
theorem cyc_reachable (k : Nat) : Reachable (cyc k) := by
  induction k with
  | zero => exact Reachable.init 1 1 (by decide) (by decide)
  | succ k ih => exact Reachable.step _ _ (Reachable.step _ _ ih)

/-- Invariant of the `cyc` trace: the region is back to empty with id 0 free
and its generation equal to `(1 + k) % 2^16`. -/
theorem cyc_spec (k : Nat) :
    (cyc k).capacity = 1 ∧ (cyc k).len = 0 ∧ (cyc k).freeTop = 1 ∧
    (cyc k).freeStack 0 = 0 ∧ (cyc k).idToIndex 0 = INVALID ∧
    (cyc k).generation 0 = (1 + k) % 65536 := by
  induction k with
  | zero =>
    refine ⟨rfl, rfl, rfl, rfl, rfl, ?_⟩
    decide
  | succ k ih =>
    obtain ⟨hcap, hlen, hft, hfs, hi2x, hgen⟩ := ih
    have hft0 : (cyc k).freeTop ≠ 0 := by omega
    have hstep := step_allocate_eq (cyc k) hft0
    have h10 : (cyc k).freeTop - 1 = 0 := by omega
    rw [h10, hfs] at hstep
    -- fields of the intermediate state u = step (cyc k) Op.allocate
    have hucap : (step (cyc k) Op.allocate).capacity = 1 := by rw [hstep]; exact hcap
    have hulen : (step (cyc k) Op.allocate).len = 1 := by
      rw [hstep]; dsimp only; omega
    have huft : (step (cyc k) Op.allocate).freeTop = 0 := by
      rw [hstep]
    have hugen : (step (cyc k) Op.allocate).generation 0 = (1 + k) % 65536 := by
      rw [hstep]; exact hgen
    have hui2x : (step (cyc k) Op.allocate).idToIndex 0 = 0 := by
      rw [hstep]
      dsimp only
      rw [hlen, upd_self]
    have huval : validate_handle (step (cyc k) Op.allocate) 0 ((1 + k) % 65536) = some 0 := by
      rw [validate_handle_some]
      refine ⟨by omega, hugen, by rw [hui2x]; unfold INVALID; omega, hui2x.symm⟩
    have hc : cyc (k + 1) =
        step (step (cyc k) Op.allocate) (Op.remove 0 ((1 + k) % 65536)) := rfl
    have hlast : (step (cyc k) Op.allocate).len - 1 = 0 := by omega
    have hconv : removeAt (step (cyc k) Op.allocate) 0 0 =
        removeAt (step (cyc k) Op.allocate) 0 ((step (cyc k) Op.allocate).len - 1) := by
      rw [hlast]
    rw [hc, step_remove_eq _ _ _ _ huval, hconv, removeAt_last]
    dsimp only
    rw [hlast]
    refine ⟨hucap, rfl, by omega, ?_, by rw [upd_self], ?_⟩
    · rw [huft, upd_self]
    · rw [upd_self, hugen]
      omega

/-- C1: in every reachable state of an initialized region (after `init` and
any sequence of `allocate`, `insert`, `remove`, `clear` calls), the header
field `len` plus the trailer field `free_top` equals `capacity`. -/
theorem C1_len_plus_freeTop (s : SlotMap) (h : Reachable s) :
    s.len + s.freeTop = s.capacity :=
  (wf_reachable s h).2.2.1

/-- Witness for C1 at a concrete reachable state. -/
theorem C1_witness :
    (step (init 4 4) Op.allocate).len + (step (init 4 4) Op.allocate).freeTop =
      (step (init 4 4) Op.allocate).capacity :=
  C1_len_plus_freeTop (step (init 4 4) Op.allocate)
    (Reachable.step _ Op.allocate (Reachable.init 4 4 (by decide) (by decide)))

/-- C2: for every region state and handle `(id, generation)`,
`validate_handle` returns a dense index iff `id < capacity`, the stored
generation matches, and `id_to_index[id] != 0xFFFF` (and the index returned is
`id_to_index[id]`); `is_alive` returns true under exactly the same
conditions, and when any condition fails `validate_handle` yields no index. -/
theorem C2_handle_validity (s : SlotMap) (id g : Nat) :
    (∀ i, validate_handle s id g = some i ↔
      (id < s.capacity ∧ s.generation id = g ∧ s.idToIndex id ≠ INVALID ∧
        i = s.idToIndex id)) ∧
    (is_alive s id g = true ↔
      (id < s.capacity ∧ s.generation id = g ∧ s.idToIndex id ≠ INVALID)) ∧
    (validate_handle s id g = none ↔
      ¬(id < s.capacity ∧ s.generation id = g ∧ s.idToIndex id ≠ INVALID)) :=
  ⟨fun i => validate_handle_some s id g i, is_alive_iff s id g,
    validate_handle_none s id g⟩

/-- Witness for C2: the freshly allocated handle `(1, 1)` of a capacity-2
region is alive. -/
theorem C2_witness : is_alive (step (init 2 7) Op.allocate) 1 1 = true :=
  (C2_handle_validity (step (init 2 7) Op.allocate) 1 1).2.1.mpr
    ⟨by decide, by decide, by decide⟩

/-- C3: `allocate` returns `None` exactly when `free_top == 0` (leaving the
region unchanged); otherwise it pops the top of `free_stack`, maps the popped
id to dense index `len` in both direction maps, increments `len`, and returns
`(id, generation[id])`, touching nothing else. -/
theorem C3_allocate_spec (s : SlotMap) :
    (allocate s = none ↔ s.freeTop = 0) ∧
    (s.freeTop = 0 → step s Op.allocate = s) ∧
    (∀ id g s', allocate s = some ((id, g), s') →
      id = s.freeStack (s.freeTop - 1) ∧
      g = s.generation id ∧
      s'.freeTop = s.freeTop - 1 ∧
      s'.len = s.len + 1 ∧
      s'.idToIndex id = s.len ∧
      s'.indexToId s.len = id ∧
      s'.generation = s.generation ∧
      s'.values = s.values ∧
      s'.capacity = s.capacity ∧
      s'.freeStack = s.freeStack ∧
      (∀ j, j ≠ id → s'.idToIndex j = s.idToIndex j) ∧
      (∀ i, i ≠ s.len → s'.indexToId i = s.indexToId i)) := by
  refine ⟨allocate_eq_none s, ?_, ?_⟩
  · intro h0
    unfold step
    rw [(allocate_eq_none s).2 h0]
  · intro id g s' ha
    rw [allocate_eq_some] at ha
    obtain ⟨hft, hp, hs'⟩ := ha
    have hid : id = s.freeStack (s.freeTop - 1) := congrArg Prod.fst hp
    have hg : g = s.generation (s.freeStack (s.freeTop - 1)) := congrArg Prod.snd hp
    subst hs'
    refine ⟨hid, by rw [hg, hid], rfl, rfl, ?_, ?_, rfl, rfl, rfl, rfl, ?_, ?_⟩
    · dsimp only
      rw [hid, upd_self]
    · dsimp only
      rw [upd_self, hid]
    · intro j hj
      dsimp only
      rw [hid] at hj
      exact upd_other _ _ _ _ hj
    · intro i hi
      dsimp only
      exact upd_other _ _ _ _ hi

/-- Witness for C3: both branches at concrete regions — a full capacity-1
region refuses allocation and is left unchanged, and allocation on a fresh
capacity-3 region bumps `len`. -/
theorem C3_witness :
    allocate (step (init 1 1) Op.allocate) = none ∧
    step (step (init 1 1) Op.allocate) Op.allocate = step (init 1 1) Op.allocate ∧
    (step (init 3 2) Op.allocate).len = (init 3 2).len + 1 :=
  ⟨(C3_allocate_spec (step (init 1 1) Op.allocate)).1.mpr (by decide),
   (C3_allocate_spec (step (init 1 1) Op.allocate)).2.1 (by decide),
   ((C3_allocate_spec (init 3 2)).2.2 2 1 (step (init 3 2) Op.allocate) rfl).2.2.2.1⟩

/-- C7: for every invalid handle, `remove` returns false and leaves the whole
region (all fields, including value bytes) unchanged, and `insert` returns
false and writes nothing; for a valid handle, `insert` copies exactly
`element_size` bytes into the indexed dense slot in full, leaving every other
slot and every bookkeeping field unchanged. -/
theorem C7_invalid_handle_noop (s : SlotMap) (id g : Nat) (src : List Nat) :
    (validate_handle s id g = none →
      remove s id g = (false, s) ∧ insert s id g src = (false, s)) ∧
    (∀ i, validate_handle s id g = some i →
      (insert s id g src).1 = true ∧
      (insert s id g src).2.values i = src.take s.elementSize ∧
      (∀ j, j ≠ i → (insert s id g src).2.values j = s.values j) ∧
      (insert s id g src).2.len = s.len ∧
      (insert s id g src).2.freeTop = s.freeTop ∧
      (insert s id g src).2.idToIndex = s.idToIndex ∧
      (insert s id g src).2.indexToId = s.indexToId ∧
      (insert s id g src).2.generation = s.generation ∧
      (insert s id g src).2.freeStack = s.freeStack) := by
  constructor
  · intro hv
    constructor
    · unfold remove
      rw [hv]
    · unfold insert
      rw [hv]
  · intro i hv
    unfold insert
    rw [hv]
    dsimp only
    exact ⟨rfl, upd_self _ _ _, fun j hj => upd_other _ _ _ _ hj,
      rfl, rfl, rfl, rfl, rfl, rfl⟩

/-- Witness for C7: a wrong-generation handle on a fresh region is rejected
without mutation; a live handle accepts an insert. -/
theorem C7_witness :
    remove (init 2 1) 0 0 = (false, init 2 1) ∧
    insert (init 2 1) 0 0 [9] = (false, init 2 1) ∧
    (insert (step (init 2 1) Op.allocate) 1 1 [9]).1 = true ∧
    (insert (step (init 2 1) Op.allocate) 1 1 [9]).2.len =
      (step (init 2 1) Op.allocate).len :=
  ⟨((C7_invalid_handle_noop (init 2 1) 0 0 [9]).1 (by decide)).1,
   ((C7_invalid_handle_noop (init 2 1) 0 0 [9]).1 (by decide)).2,
   ((C7_invalid_handle_noop (step (init 2 1) Op.allocate) 1 1 [9]).2 0 (by decide)).1,
   ((C7_invalid_handle_noop (step (init 2 1) Op.allocate) 1 1 [9]).2 0
      (by decide)).2.2.2.1⟩

/-- C8: immediately after `clear`, `len` is 0, `free_top` equals `capacity`,
both index maps hold `0xFFFF` everywhere, the free stack holds `0..capacity`
ascending, the generation array is bit-for-bit unchanged, and no handle at
all (in particular none issued before the clear) is alive. -/
theorem C8_clear_spec (s : SlotMap) :
    (clear s).len = 0 ∧
    (clear s).freeTop = s.capacity ∧
    (∀ i, i < s.capacity →
      (clear s).idToIndex i = INVALID ∧ (clear s).indexToId i = INVALID) ∧
    (∀ k, k < s.capacity → (clear s).freeStack k = k) ∧
    (clear s).generation = s.generation ∧
    (∀ id g, is_alive (clear s) id g = false) := by
  refine ⟨rfl, rfl, fun i _ => ⟨rfl, rfl⟩, fun k _ => rfl, rfl, ?_⟩
  intro id g
  simp [is_alive, validate_handle, clear]

/-- Witness for C8: clearing a region with one live element kills its
handle and resets the free stack. -/
theorem C8_witness :
    (clear (step (init 3 2) Op.allocate)).freeStack 1 = 1 ∧
    is_alive (clear (step (init 3 2) Op.allocate)) 2 1 = false :=
  ⟨(C8_clear_spec (step (init 3 2) Op.allocate)).2.2.2.1 1 (by decide),
   (C8_clear_spec (step (init 3 2) Op.allocate)).2.2.2.2.2 2 1⟩

/-- C9: in every reachable state the dense array has no gaps —
`index_to_id[i] != 0xFFFF` for every `i < len` and `index_to_id[i] == 0xFFFF`
for every `len <= i < capacity`. -/
theorem C9_dense_contiguity (s : SlotMap) (h : Reachable s) :
    (∀ i, i < s.len → s.indexToId i ≠ INVALID) ∧
    (∀ i, s.len ≤ i → i < s.capacity → s.indexToId i = INVALID) := by
  obtain ⟨hcap, hcap16, hsum, hdense, hgap, _⟩ := wf_reachable s h
  constructor
  · intro i hi
    have h1 := (hdense i hi).1
    unfold INVALID
    omega
  · intro i h1 h2
    exact hgap i h2 h1

/-- Witness for C9 at a concrete reachable state with one live element. -/
theorem C9_witness :
    (step (init 2 7) Op.allocate).indexToId 0 ≠ INVALID ∧
    (step (init 2 7) Op.allocate).indexToId 1 = INVALID :=
  ⟨(C9_dense_contiguity _
      (Reachable.step _ Op.allocate (Reachable.init 2 7 (by decide) (by decide)))).1
      0 (by decide),
   (C9_dense_contiguity _
      (Reachable.step _ Op.allocate (Reachable.init 2 7 (by decide) (by decide)))).2
      1 (by decide) (by decide)⟩

/-- Unfolding of one `cyc` round. -/
theorem cyc_succ (k : Nat) :
    cyc (k + 1) = step (step (cyc k) Op.allocate) (Op.remove 0 ((1 + k) % 65536)) :=
  rfl

/-- On any `cyc` state, `allocate` issues the handle `(0, (1 + k) % 2^16)`
and that handle is then alive. -/
theorem cyc_alloc (k : Nat) :
    (allocate (cyc k)).map Prod.fst = some (0, (1 + k) % 65536) ∧
    is_alive (step (cyc k) Op.allocate) 0 ((1 + k) % 65536) = true := by
  obtain ⟨hcap, hlen, hft, hfs, hi2x, hgen⟩ := cyc_spec k
  have hft0 : (cyc k).freeTop ≠ 0 := by omega
  have h10 : (cyc k).freeTop - 1 = 0 := by omega
  constructor
  · rw [allocate_map_fst _ hft0, h10, hfs, hgen]
  · have hstep := step_allocate_eq (cyc k) hft0
    rw [h10, hfs] at hstep
    rw [is_alive_iff, hstep]
    dsimp only
    refine ⟨by omega, hgen, ?_⟩
    rw [hlen, upd_self]
    unfold INVALID
    omega

/-- C4 counterexample: after 65535 allocate/remove rounds of id 0 on a
capacity-1 region the stored generation wraps to 0, so the very next
`allocate` in this reachable state returns the handle `(0, 0)`, and that
generation-0 handle is then reported alive. -/
theorem C4_counterexample :
    Reachable (cyc 65535) ∧
    (allocate (cyc 65535)).map Prod.fst = some (0, 0) ∧
    is_alive (step (cyc 65535) Op.allocate) 0 0 = true := by
  have h := cyc_alloc 65535
  have e : (1 + 65535) % 65536 = 0 := by norm_num
  rw [e] at h
  exact ⟨cyc_reachable 65535, h.1, h.2⟩

/-- C4 (amended): the generation returned by `allocate`, and the generation
of any handle reported alive, is nonzero in every reachable state whose
stored generations are all nonzero. (This holds from `init`, which fills
generations with 1, until a 16-bit wraparound: after exactly 65535 removals
of the same id its stored generation becomes 0 and a generation-0 handle is
issued and reported alive.) -/
theorem C4_generation_nonzero (s : SlotMap) (h : Reachable s)
    (hnz : ∀ j, j < s.capacity → s.generation j ≠ 0) :
    (∀ p s', allocate s = some (p, s') → p.2 ≠ 0) ∧
    (∀ id g, is_alive s id g = true → g ≠ 0) := by
  obtain ⟨hcap, hcap16, hsum, hdense, hgap, hi2x, hgen, hfree, hnodup⟩ :=
    wf_reachable s h
  constructor
  · intro p s' ha
    rw [allocate_eq_some] at ha
    obtain ⟨hft, hp, _⟩ := ha
    have hidcap : s.freeStack (s.freeTop - 1) < s.capacity :=
      (hfree _ (by omega)).1
    rw [hp]
    exact hnz _ hidcap
  · intro id g hal
    rw [is_alive_iff] at hal
    obtain ⟨h1, h2, _⟩ := hal
    rw [← h2]
    exact hnz id h1

/-- Witness for C4 (amended) at a fresh capacity-2 region. -/
theorem C4_witness :
    is_alive (step (init 2 3) Op.allocate) 1 1 = true ∧ (1 : Nat) ≠ 0 :=
  ⟨by decide,
   (C4_generation_nonzero (step (init 2 3) Op.allocate)
      (Reachable.step _ Op.allocate (Reachable.init 2 3 (by decide) (by decide)))
      (by decide)).2 1 1 (by decide)⟩

/-- C5 counterexample: two successive `allocate` calls that yield id 0 on the
same capacity-1 trace (separated by exactly one remove of id 0) return
generations 65535 and then 0 — the issued generation sequence for id 0 is not
strictly increasing once the 16-bit counter wraps. -/
theorem C5_counterexample :
    cyc 65535 = step (step (cyc 65534) Op.allocate) (Op.remove 0 65535) ∧
    (allocate (cyc 65534)).map Prod.fst = some (0, 65535) ∧
    (allocate (cyc 65535)).map Prod.fst = some (0, 0) ∧
    Reachable (cyc 65534) := by
  have h4 := cyc_alloc 65534
  have h5 := cyc_alloc 65535
  have e4 : (1 + 65534) % 65536 = 65535 := by norm_num
  have e5 : (1 + 65535) % 65536 = 0 := by norm_num
  rw [e4] at h4
  rw [e5] at h5
  have hsucc := cyc_succ 65534
  rw [e4] at hsucc
  have hnum : (65535 : Nat) = 65534 + 1 := by norm_num
  exact ⟨(congrArg cyc hnum).trans hsucc, h4.1, h5.1, cyc_reachable 65534⟩

/-- C5 (amended): each `remove` of a validated handle advances that id's
stored generation by exactly one mod 2^16 leaving all other generations
unchanged, `allocate` modifies no generation and returns the stored
generation of the id it issues, and a handle whose generation differs from
the stored one is never reported alive — so issued generations for an id
strictly increase until the 16-bit counter wraps around. -/
theorem C5_generation_advance (s : SlotMap) (id g : Nat) :
    (∀ id' g', is_alive s id' g' = true → s.generation id' = g') ∧
    (∀ i, validate_handle s id g = some i →
      (remove s id g).2.generation id = (s.generation id + 1) % 65536 ∧
      (∀ j, j ≠ id → (remove s id g).2.generation j = s.generation j)) ∧
    (∀ p s', allocate s = some (p, s') →
      s'.generation = s.generation ∧ p.2 = s.generation p.1) := by
  refine ⟨?_, ?_, ?_⟩
  · intro id' g' ha
    exact ((is_alive_iff s id' g').1 ha).2.1
  · intro i hv
    have he := remove_stack_effect s id g i hv
    exact ⟨he.2.2.2.1, he.2.2.2.2⟩
  · intro p s' ha
    rw [allocate_eq_some] at ha
    obtain ⟨hft, hp, hs'⟩ := ha
    subst hs'
    exact ⟨rfl, by rw [hp]⟩

/-- C6: removing a valid handle whose dense index is not the last relocates
exactly the formerly-last element's payload and id mapping into the freed
slot — `index_to_id[index]` becomes the moved id, `id_to_index[moved_id]`
becomes `index`, and `values[index]` receives the old last payload — while
every other dense slot below the new length keeps its payload and id, and
every other live handle stays alive with its payload bytes unchanged. -/
theorem C6_swap_remove (s : SlotMap) (id g index : Nat) (h : WF s)
    (hv : validate_handle s id g = some index) (hne : index ≠ s.len - 1) :
    (remove s id g).1 = true ∧
    (remove s id g).2.len = s.len - 1 ∧
    (remove s id g).2.indexToId index = s.indexToId (s.len - 1) ∧
    (remove s id g).2.idToIndex (s.indexToId (s.len - 1)) = index ∧
    (remove s id g).2.values index = s.values (s.len - 1) ∧
    (∀ j, j < s.len - 1 → j ≠ index →
      (remove s id g).2.values j = s.values j ∧
      (remove s id g).2.indexToId j = s.indexToId j) ∧
    (∀ id' g', id' ≠ id → is_alive s id' g' = true →
      is_alive (remove s id g).2 id' g' = true ∧
      (remove s id g).2.values ((remove s id g).2.idToIndex id') =
        s.values (s.idToIndex id')) := by
  have halive := fun id' g' hne' ha' =>
    remove_alive_preserved s id g h id' g' hne' ha'
  obtain ⟨hcap, hcap16, hsum, hdense, hgap, hi2x, hgen, hfree, hnodup⟩ := h
  have hvs := hv
  rw [validate_handle_some] at hvs
  obtain ⟨hid, hgene, hlive, hix⟩ := hvs
  have hlt : index < s.len := by
    rcases hi2x id hid with hd | ⟨hl, _⟩
    · exact absurd hd (hix ▸ hlive)
    · rw [hix]; exact hl
  have heqinv : s.indexToId index = id := by
    rcases hi2x id hid with hd | ⟨_, he⟩
    · exact absurd hd (hix ▸ hlive)
    · rw [hix]; exact he
  have hlen_pos : 0 < s.len := by omega
  have hidx_lt : index < s.len - 1 := by omega
  have hlastL : s.len - 1 < s.len := by omega
  have hMcap : s.indexToId (s.len - 1) < s.capacity := (hdense _ hlastL).1
  have hMidx : s.idToIndex (s.indexToId (s.len - 1)) = s.len - 1 := (hdense _ hlastL).2
  have hMne : s.indexToId (s.len - 1) ≠ id := by
    intro hEq
    rw [hEq, ← hix] at hMidx
    exact hne hMidx
  have hrb : (remove s id g).1 = true := by unfold remove; rw [hv]
  have hrm : (remove s id g).2 = removeAt s id index := by unfold remove; rw [hv]
  have hra := removeAt_swap s id index hne
  refine ⟨hrb, ?_, ?_, ?_, ?_, ?_, ?_⟩
  · rw [hrm, hra]
  · rw [hrm, hra]
    dsimp only
    rw [upd_other _ _ _ _ hne, upd_self]
  · rw [hrm, hra]
    dsimp only
    rw [upd_other _ _ _ _ hMne, upd_self]
  · rw [hrm, hra]
    dsimp only
    rw [upd_other _ _ _ _ hne, upd_self]
  · intro j hj hjne
    rw [hrm, hra]
    dsimp only
    constructor
    · rw [upd_other _ _ _ _ (by omega : j ≠ s.len - 1), upd_other _ _ _ _ hjne]
    · rw [upd_other _ _ _ _ (by omega : j ≠ s.len - 1), upd_other _ _ _ _ hjne]
  · intro id' g' hne' ha'
    refine ⟨halive id' g' hne' ha', ?_⟩
    rw [is_alive_iff] at ha'
    obtain ⟨h1, h2, h3⟩ := ha'
    rw [hrm, hra]
    dsimp only
    by_cases hM : id' = s.indexToId (s.len - 1)
    · subst hM
      rw [upd_other _ _ _ _ hne', upd_self,
        upd_other _ _ _ _ hne, upd_self, hMidx]
    · have hjl : s.idToIndex id' < s.len ∧ s.indexToId (s.idToIndex id') = id' := by
        rcases hi2x id' h1 with hd | hok
        · exact absurd hd h3
        · exact hok
      have hne_last : s.idToIndex id' ≠ s.len - 1 := by
        intro hEq
        rw [hEq] at hjl
        exact hM hjl.2.symm
      have hne_idx : s.idToIndex id' ≠ index := by
        intro hEq
        rw [hEq, heqinv] at hjl
        exact hne' hjl.2.symm
      rw [upd_other _ _ _ _ hne', upd_other _ _ _ _ hM,
        upd_other _ _ _ _ hne_last, upd_other _ _ _ _ hne_idx]

/-- Witness for C6: on a full capacity-4 region (ids 3,2,1,0 at dense
indices 0..3), removing id 2 (dense index 1) moves id 0's entry into slot 1
and keeps id 3 alive. -/
theorem C6_witness :
    (remove (run (init 4 1) [Op.allocate, Op.allocate, Op.allocate, Op.allocate]) 2 1).2.indexToId
        1 =
      (run (init 4 1) [Op.allocate, Op.allocate, Op.allocate, Op.allocate]).indexToId 3 ∧
    is_alive
      (remove (run (init 4 1) [Op.allocate, Op.allocate, Op.allocate, Op.allocate]) 2 1).2 3 1 =
      true :=
  ⟨(C6_swap_remove (run (init 4 1) [Op.allocate, Op.allocate, Op.allocate, Op.allocate])
      2 1 1 (by decide) (by decide) (by decide)).2.2.1,
   ((C6_swap_remove (run (init 4 1) [Op.allocate, Op.allocate, Op.allocate, Op.allocate])
      2 1 1 (by decide) (by decide) (by decide)).2.2.2.2.2.2 3 1 (by decide)
      (by decide)).1⟩

/-- C10: id reuse is LIFO — after a fresh `init` the first `allocate` returns
id `capacity - 1` (with generation 1), and removing three live ids in order
`[a, b, c]` then allocating three times yields ids `[c, b, a]`. -/
theorem C10_lifo_reuse :
    (∀ c e, 0 < c → (allocate (init c e)).map Prod.fst = some (c - 1, 1)) ∧
    (∀ s a ga b gb c gc, WF s → a ≠ b → a ≠ c → b ≠ c →
      is_alive s a ga = true → is_alive s b gb = true → is_alive s c gc = true →
      (allocate (remove (remove (remove s a ga).2 b gb).2 c gc).2).map
          (fun p => p.1.1) = some c ∧
      (allocate (step (remove (remove (remove s a ga).2 b gb).2 c gc).2
          Op.allocate)).map (fun p => p.1.1) = some b ∧
      (allocate (step (step (remove (remove (remove s a ga).2 b gb).2 c gc).2
          Op.allocate) Op.allocate)).map (fun p => p.1.1) = some a) := by
  constructor
  · intro c e hc
    have hft : (init c e).freeTop ≠ 0 := by
      show c ≠ 0
      omega
    rw [allocate_map_fst _ hft]
    rfl
  · intro s a ga b gb c gc hW hab hac hbc ha hb hc
    obtain ⟨ia, hva⟩ := is_alive_exists s a ga ha
    have hW1 : WF (remove s a ga).2 := wf_remove s a ga hW
    have E1 := remove_stack_effect s a ga ia hva
    have hb1 : is_alive (remove s a ga).2 b gb = true :=
      remove_alive_preserved s a ga hW b gb (Ne.symm hab) hb
    have hc1 : is_alive (remove s a ga).2 c gc = true :=
      remove_alive_preserved s a ga hW c gc (Ne.symm hac) hc
    obtain ⟨ib, hvb⟩ := is_alive_exists _ b gb hb1
    have hW2 : WF (remove (remove s a ga).2 b gb).2 := wf_remove _ b gb hW1
    have E2 := remove_stack_effect _ b gb ib hvb
    have hc2 : is_alive (remove (remove s a ga).2 b gb).2 c gc = true :=
      remove_alive_preserved _ b gb hW1 c gc (Ne.symm hbc) hc1
    obtain ⟨ic, hvc⟩ := is_alive_exists _ c gc hc2
    have E3 := remove_stack_effect _ c gc ic hvc
    have hft1 : (remove s a ga).2.freeTop = s.freeTop + 1 := E1.1
    have hft2 : (remove (remove s a ga).2 b gb).2.freeTop = s.freeTop + 2 := by
      rw [E2.1, hft1]
    have hft3 :
        (remove (remove (remove s a ga).2 b gb).2 c gc).2.freeTop = s.freeTop + 3 := by
      rw [E3.1, hft2]
    have hsc :
        (remove (remove (remove s a ga).2 b gb).2 c gc).2.freeStack (s.freeTop + 2) = c := by
      rw [← hft2]
      exact E3.2.1
    have hsb :
        (remove (remove (remove s a ga).2 b gb).2 c gc).2.freeStack (s.freeTop + 1) = b := by
      rw [E3.2.2.1 _ (by omega), ← hft1]
      exact E2.2.1
    have hsa :
        (remove (remove (remove s a ga).2 b gb).2 c gc).2.freeStack s.freeTop = a := by
      rw [E3.2.2.1 _ (by omega), E2.2.2.1 _ (by omega)]
      exact E1.2.1
    have hstep := step_allocate_eq (remove (remove (remove s a ga).2 b gb).2 c gc).2
      (by omega)
    have ht1ft :
        (step (remove (remove (remove s a ga).2 b gb).2 c gc).2 Op.allocate).freeTop =
          s.freeTop + 2 := by
      rw [hstep]
      dsimp only
      omega
    have ht1fs :
        (step (remove (remove (remove s a ga).2 b gb).2 c gc).2 Op.allocate).freeStack =
          (remove (remove (remove s a ga).2 b gb).2 c gc).2.freeStack := by
      rw [hstep]
    have hstep2 := step_allocate_eq
      (step (remove (remove (remove s a ga).2 b gb).2 c gc).2 Op.allocate) (by omega)
    have ht2ft :
        (step (step (remove (remove (remove s a ga).2 b gb).2 c gc).2 Op.allocate)
          Op.allocate).freeTop = s.freeTop + 1 := by
      rw [hstep2]
      dsimp only
      omega
    have ht2fs :
        (step (step (remove (remove (remove s a ga).2 b gb).2 c gc).2 Op.allocate)
          Op.allocate).freeStack =
          (remove (remove (remove s a ga).2 b gb).2 c gc).2.freeStack := by
      rw [hstep2]
      dsimp only
      exact ht1fs
    refine ⟨?_, ?_, ?_⟩
    · rw [allocate_id _ (by omega), hft3]
      have he : s.freeTop + 3 - 1 = s.freeTop + 2 := by omega
      rw [he, hsc]
    · rw [allocate_id _ (by omega), ht1ft, ht1fs]
      have he : s.freeTop + 2 - 1 = s.freeTop + 1 := by omega
      rw [he, hsb]
    · rw [allocate_id _ (by omega), ht2ft, ht2fs]
      have he : s.freeTop + 1 - 1 = s.freeTop := by omega
      rw [he, hsa]

/-- Witness for C10: the first allocation on a fresh capacity-5 region yields
id 4 with generation 1, and on a full capacity-4 region (ids 3,2,1,0 live)
removing ids 1, 2, 3 in that order then allocating returns id 3 first. -/
theorem C10_witness :
    (allocate (init 5 2)).map Prod.fst = some (4, 1) ∧
    (allocate
        (remove
          (remove
            (remove (run (init 4 1) [Op.allocate, Op.allocate, Op.allocate, Op.allocate])
              1 1).2
            2 1).2
          3 1).2).map (fun p => p.1.1) = some 3 :=
  ⟨C10_lifo_reuse.1 5 2 (by decide),
   (C10_lifo_reuse.2 (run (init 4 1) [Op.allocate, Op.allocate, Op.allocate, Op.allocate])
      1 1 2 1 3 1 (by decide) (by decide) (by decide) (by decide) (by decide) (by decide)
      (by decide)).1⟩

/-- Witness for C5 (amended): a concrete remove bumps the stored generation
of id 0 from 1 to 2 and a live handle's generation matches the stored one. -/
theorem C5_witness :
    (remove (step (init 1 1) Op.allocate) 0 1).2.generation 0 =
      ((step (init 1 1) Op.allocate).generation 0 + 1) % 65536 ∧
    (step (init 1 1) Op.allocate).generation 0 = 1 :=
  ⟨((C5_generation_advance (step (init 1 1) Op.allocate) 0 1).2.1 0 (by decide)).1,
   (C5_generation_advance (step (init 1 1) Op.allocate) 0 1).1 0 1 (by decide)⟩

end DSM
